import Mathlib

/-!
Shallow embedding of the `dmp-eva` browser tool (a DMP evaluation assistant)
for specification checking.

The embedding covers:
* `src/js/evaluator.js` — `evaluate`, `processResults`, `determineStatus`;
* `src/js/criteria-extractor.js` — `extractCriteria`, `parseTableRows`,
  `getDefaultCriteria`, `validateCriteria` and their regex helpers;
* `src/js/api-config.js` — `retryWithBackoff` and `parseSSEStream`.

JavaScript values are modelled as follows: machine numbers that the code
only ever uses as integers become `Int`/`Nat`; strings become `String`;
a field that the code reads with `x.f || default` is modelled as a plain
value whose "falsy" cases (absent, `""`, `0`) are conflated with the
falsy literal, matching what the `||` normalization observes.
-/

namespace DmpEva

/-! ### Data model (evaluator.js) -/

/-- A category of the evaluation rubric (`criteria.categories[i]`). -/
structure Category where
  id : String
  name : String
  description : String
deriving DecidableEq, Repr

/-- A rubric as returned by `extractCriteria` / `getDefaultCriteria`. -/
structure Criteria where
  phase : String
  categories : List Category
deriving DecidableEq, Repr

/-- A raw category from the LLM output, before normalization.
Missing string fields are conflated with `""` (both are falsy under
`||`), a missing score with `0`. -/
structure RawCategory where
  id : String
  name : String
  score : Int
  status : String
  feedback : String
deriving DecidableEq, Repr

/-- Raw results from the LLM (`rawResults`).  `categories` is `none`
when the field is absent or not an array. -/
structure RawResults where
  overallScore : Int
  categories : Option (List RawCategory)
deriving DecidableEq, Repr

/-- A normalized category result produced by `processResults`. -/
structure CategoryResult where
  id : String
  name : String
  score : Int
  status : String
  feedback : String
deriving DecidableEq, Repr

/-- The processed results object returned by `processResults`. -/
structure ProcessedResults where
  overallScore : Int
  categories : List CategoryResult
deriving DecidableEq, Repr

/-! ### determineStatus (evaluator.js, lines 164-169) -/

/-- Model of `determineStatus(score)`: status label from a score. -/
def determineStatus (score : Int) : String :=
  if score ≥ 90 then "excellent"
  else if score ≥ 75 then "good"
  else if score ≥ 60 then "fair"
  else "poor"

/-! ### processResults (evaluator.js, lines 102-157) -/

/-- The per-category map body of `processResults` (lines 111-122):
`cat.id || 'unknown'`, `cat.name || 'Unknown Category'`,
`Math.min(100, Math.max(0, cat.score || 0))`,
`cat.status || determineStatus(cat.score || 0)`,
`cat.feedback || 'No feedback provided'`.  (`cat.score || 0` equals
`cat.score` under the Int model since `0 || 0 = 0`.) -/
def normalizeCategory (cat : RawCategory) : CategoryResult :=
  { id := if cat.id = "" then "unknown" else cat.id
    name := if cat.name = "" then "Unknown Category" else cat.name
    score := min 100 (max 0 cat.score)
    status := if cat.status = "" then determineStatus cat.score else cat.status
    feedback := if cat.feedback = "" then "No feedback provided" else cat.feedback }

/-- Model of `Math.round(sum / length)` for the nonnegative clamped scores:
round-half-up of the rational mean, computed as `⌊(2·sum + n) / (2·n)⌋`. -/
def roundMean (scores : List Int) : Int :=
  Int.ofNat ((2 * scores.sum + (scores.length : Int)).toNat / (2 * scores.length))

/-- Fixed feedback text of the placeholder pushed for a missing category
(line 143). -/
def placeholderFeedback : String :=
  "This criterion was not evaluated. Please review the DMP for this section."

/-- The placeholder `CategoryResult` pushed for a rubric category the
model omitted (lines 138-144). -/
def placeholderFor (c : Category) : CategoryResult :=
  { id := c.id, name := c.name, score := 0, status := "poor",
    feedback := placeholderFeedback }

/-- Lines 133-146: `existingIds` is computed once from the mapped
categories, then every rubric category whose id is not in it gets a
placeholder appended (in rubric order). -/
def fillMissing (cats : List CategoryResult) (crit : List Category) :
    List CategoryResult :=
  let existingIds := cats.map (·.id)
  cats ++ (crit.filter (fun c => !decide (c.id ∈ existingIds))).map placeholderFor

/-- Model of `parseInt(s)` (radix 10): leading whitespace, optional sign, then a
nonempty digit run; `none` models `NaN`. -/
def parseIntJS (s : String) : Option Int :=
  let digitsVal : List Char → Option Nat := fun cs =>
    let ds := cs.takeWhile Char.isDigit
    if ds = [] then none
    else some (ds.foldl (fun a c => a * 10 + (c.toNat - '0'.toNat)) 0)
  let cs := s.data.dropWhile Char.isWhitespace
  match cs with
  | '-' :: rest => (digitsVal rest).map (fun n => -(n : Int))
  | '+' :: rest => (digitsVal rest).map (fun n => (n : Int))
  | _ => (digitsVal cs).map (fun n => (n : Int))

/-- Strict lexicographic order on code points. -/
def lexLt : List Char → List Char → Bool
  | [], [] => false
  | [], _ :: _ => true
  | _ :: _, [] => false
  | c :: cs, d :: ds => if c < d then true else if d < c then false else lexLt cs ds

/-- Model of `a.id.localeCompare(b.id)` modelled as code-point lexicographic
comparison returning -1/0/1. -/
def lexCompare (a b : String) : Int :=
  if lexLt a.data b.data then -1 else if lexLt b.data a.data then 1 else 0

/-- The sort comparator of lines 149-154.  `parseInt` returning `NaN`
makes `aNum !== bNum` true and the returned difference `NaN`, which the
sort treats as 0 ("equal"); hence the `none` cases compare as 0. -/
def catCompare (a b : CategoryResult) : Int :=
  match parseIntJS a.id, parseIntJS b.id with
  | some x, some y => if x ≠ y then x - y else lexCompare a.id b.id
  | _, _ => 0

/-- The sort order induced by `catCompare` (JS engines' `sort` is stable;
modelled by stable insertion sort). -/
def catLe (a b : CategoryResult) : Prop := catCompare a b ≤ 0

instance : DecidableRel catLe := fun a b => by
  unfold catLe; infer_instance

/-- Model of `processResults(rawResults, criteria)` (lines 102-157): normalize the
raw categories, recompute `overallScore` when falsy, append placeholders
for omitted rubric categories, and sort by the id comparator. -/
def processResults (raw : RawResults) (criteria : Criteria) : ProcessedResults :=
  -- lines 104-123: overallScore || 0  and the category map
  let cats0 : List CategoryResult :=
    match raw.categories with
    | some cs => cs.map normalizeCategory
    | none => []
  -- lines 125-131: recompute when `!overallScore || overallScore === 0`
  let overall : Int :=
    if raw.overallScore = 0 then
      if cats0.length > 0 then roundMean (cats0.map (·.score)) else raw.overallScore
    else raw.overallScore
  -- lines 133-146: fill missing categories from criteria
  let cats1 := fillMissing cats0 criteria.categories
  -- lines 148-154: sort by id (stable, comparator `catCompare`)
  { overallScore := overall
    categories := cats1.insertionSort catLe }

/-! ### criteria-extractor.js: regex / string helpers -/

/-- Model of `s.trim()`: drop whitespace from both ends. -/
def trimList (cs : List Char) : List Char :=
  ((cs.dropWhile Char.isWhitespace).reverse.dropWhile Char.isWhitespace).reverse

/-- Model of `s.trim()` on strings. -/
def jsTrim (s : String) : String := ⟨trimList s.data⟩

/-- Model of `s.toLowerCase()` (ASCII suffices for the strings involved). -/
def lowerStr (s : String) : String := ⟨s.data.map Char.toLower⟩

/-- Model of `s.startsWith(pat)`. -/
def startsWithStr (s pat : String) : Bool := pat.data.isPrefixOf s.data

/-- Model of `s.split(sep)` for a one-character separator. -/
def splitOnChar (sep : Char) : List Char → List (List Char)
  | [] => [[]]
  | c :: rest =>
    match splitOnChar sep rest with
    | [] => [[c]]
    | g :: gs => if c = sep then [] :: g :: gs else (c :: g) :: gs

/-- Model of `s.indexOf(pat)` scanning from the front: index of the first
occurrence of `pat`, or `none`. -/
def indexOfAux : List Char → List Char → Nat → Option Nat
  | [], pat, acc => if pat = [] then some acc else none
  | c :: rest, pat, acc =>
    if pat.isPrefixOf (c :: rest) then some acc
    else indexOfAux rest pat (acc + 1)

/-- Model of `s.indexOf(pat, start)`. -/
def indexOfFrom (s pat : List Char) (start : Nat) : Option Nat :=
  (indexOfAux (s.drop start) pat 0).map (· + start)

/-- Model of `s.includes(pat)`. -/
def containsStr (s pat : String) : Bool :=
  (indexOfAux s.data pat.data 0).isSome

/-- The separator-row test `line.match(/^\|\s*-+\s*\|/)`: a `|`, then
whitespace, one or more dashes, whitespace, and another `|`. -/
def sepRowMatch : List Char → Bool
  | '|' :: rest =>
    let r1 := rest.dropWhile Char.isWhitespace
    let dashes := r1.takeWhile (· = '-')
    let r2 := r1.dropWhile (· = '-')
    if dashes = [] then false
    else
      match r2.dropWhile Char.isWhitespace with
      | '|' :: _ => true
      | _ => false
  | _ => false

/-- Model of `firstCell.match(/(\d+[a-z])\s*/i)` followed by `.toLowerCase()`:
the leftmost maximal digit run immediately followed by an ASCII letter;
the captured token with the letter lowercased. -/
def findCatId : List Char → Option String
  | [] => none
  | c :: rest =>
    if c.isDigit then
      let ds := (c :: rest).takeWhile Char.isDigit
      match (c :: rest).dropWhile Char.isDigit with
      | a :: _ => if a.isAlpha then some ⟨ds ++ [a.toLower]⟩ else findCatId rest
      | [] => findCatId rest
    else findCatId rest

/-- Model of `replace(/\s+/g, ' ')`: collapse every whitespace run to one space. -/
def collapseWs : List Char → List Char
  | [] => []
  | [c] => [if c.isWhitespace then ' ' else c]
  | c :: d :: rest =>
    if c.isWhitespace ∧ d.isWhitespace then collapseWs (d :: rest)
    else (if c.isWhitespace then ' ' else c) :: collapseWs (d :: rest)

/-- Model of `replace(/^\d+[a-z]?\s+/i, '')`: strip a leading digit run, an
optional letter, and at least one whitespace char (with the regex's
backtracking resolved for this pattern). -/
def stripMarkerWs (cs : List Char) : List Char :=
  let ds := cs.takeWhile Char.isDigit
  let r := cs.dropWhile Char.isDigit
  if ds = [] then cs
  else match r with
    | c :: r2 =>
      if c.isAlpha then
        match r2 with
        | c2 :: _ => if c2.isWhitespace then r2.dropWhile Char.isWhitespace else cs
        | [] => cs
      else if c.isWhitespace then r.dropWhile Char.isWhitespace
      else cs
    | [] => cs

/-- Model of `replace(/^\d+\s+[A-Z\s]+\d+[a-z]/i, '')`: strip a leading digit
run, whitespace, a letters-and-whitespace run, a digit run, and a
letter.  `cleanDescription` only applies it after whitespace collapsing,
on which the regex match is the maximal-run parse implemented here. -/
def stripHeadingMarker (cs : List Char) : List Char :=
  let ds := cs.takeWhile Char.isDigit
  let r := cs.dropWhile Char.isDigit
  if ds = [] then cs
  else
    let ws := r.takeWhile Char.isWhitespace
    let r2 := r.dropWhile Char.isWhitespace
    if ws = [] then cs
    else
      let letters := r2.takeWhile (fun c => c.isAlpha ∨ c.isWhitespace)
      let r3 := r2.dropWhile (fun c => c.isAlpha ∨ c.isWhitespace)
      if letters = [] then cs
      else
        let ds2 := r3.takeWhile Char.isDigit
        let r4 := r3.dropWhile Char.isDigit
        if ds2 = [] then cs
        else
          match r4 with
          | a :: r5 => if a.isAlpha then r5 else cs
          | [] => cs

/-- Model of `replace(/^\d+[a-z]?\s*/i, '')` (used by `extractCategoryName`):
strip a leading digit run, an optional letter, and any whitespace. -/
def stripIdWsOpt (cs : List Char) : List Char :=
  let ds := cs.takeWhile Char.isDigit
  let r := cs.dropWhile Char.isDigit
  if ds = [] then cs
  else match r with
    | c :: r2 =>
      if c.isAlpha then r2.dropWhile Char.isWhitespace
      else r.dropWhile Char.isWhitespace
    | [] => []

/-- Model of `extractCategoryName(cellText)` (lines 262-275): strip the id
marker, then take the first line up to its last `?` (the greedy
`^([^\n]+\?)` match, needing one char before the `?`), else the first
100 chars of the first line; trimmed. -/
def extractCategoryName (cellText : String) : String :=
  let without := stripIdWsOpt cellText.data
  let firstLine := without.takeWhile (· ≠ '\n')
  match firstLine.reverse.findIdx? (· = '?') with
  | some j =>
    let qIdx := firstLine.length - 1 - j
    if qIdx ≥ 1 then ⟨trimList (firstLine.take (qIdx + 1))⟩
    else ⟨trimList (firstLine.take 100)⟩
  | none => ⟨trimList (firstLine.take 100)⟩

/-- Model of `cleanDescription(text, categoryId)` (lines 283-301). -/
def cleanDescription (text : String) (categoryId : Option String) : String :=
  if text = "" then ""
  else
    let cs0 := text.data
    -- new RegExp(`^${categoryId}\\s*`, 'i')
    let cs1 :=
      match categoryId with
      | some cid =>
        if (cs0.take cid.length).map Char.toLower = cid.data.map Char.toLower then
          (cs0.drop cid.length).dropWhile Char.isWhitespace
        else cs0
      | none => cs0
    -- replace(/\s+/g, ' ').trim()
    let cs2 := trimList (collapseWs cs1)
    -- replace(/^\d+[a-z]?\s+/i, '')
    let cs3 := stripMarkerWs cs2
    -- replace(/^\d+\s+[A-Z\s]+\d+[a-z]/i, '')
    ⟨stripHeadingMarker cs3⟩

/-! ### criteria-extractor.js: tables and rubrics -/

/-- The `CATEGORY_DEFINITIONS` constant (lines 125-142). -/
def CATEGORY_DEFINITIONS : List (String × String) :=
  [("1a", "Data Description and Collection or Re-use"),
   ("1b", "Data Types, Formats, and Volumes"),
   ("2a", "Metadata and Documentation Standards"),
   ("2b", "Data Quality Control Measures"),
   ("3a", "Storage and Backup"),
   ("3b", "Data Access Management"),
   ("3c", "Data Security and Protection"),
   ("4a", "Personal Data and GDPR Compliance"),
   ("4b", "Intellectual Property Rights and Ownership"),
   ("4c", "Ethical Requirements and Approvals"),
   ("5a", "Data Sharing Plans and Restrictions"),
   ("5b", "Data Preservation and Archiving"),
   ("5c", "Access Methods and Software Tools"),
   ("5d", "Persistent Identifiers (PIDs)"),
   ("6a", "Data Management Roles and Responsibilities"),
   ("6b", "Resources for FAIR Data Management")]

/-- Model of `CATEGORY_DEFINITIONS[id]` lookup. -/
def categoryDefFor (id : String) : Option String :=
  (CATEGORY_DEFINITIONS.find? (fun p => p.1 == id)).map (·.2)

/-- Model of `phaseColumnMap[phase] || 0` (lines 187-192; `proposal` maps to the
falsy 0 so the `|| 0` default is equivalent). -/
def phaseColumn (phase : String) : Nat :=
  (((([("proposal", 0), ("mid", 1), ("end", 2)] :
      List (String × Nat)).find? (fun p => p.1 == phase)).map (·.2)).getD 0)

/-- One iteration of the row loop of `parseTableRows` (lines 198-249).
State: the categories accumulated so far and `currentCategoryId`. -/
def parseRow (columnIndex : Nat) (st : List Category × Option String)
    (line : String) : List Category × Option String :=
  let (cats, curId) := st
  -- skip header and separator rows
  if containsStr line "Proposal/Early Stage" ∨ sepRowMatch line.data then st
  else if ¬ startsWithStr line "|" then st
  else
    let cells : List String :=
      (((splitOnChar '|' line.data).map (fun g => (⟨trimList g⟩ : String)))).filter
        (fun c => c ≠ "")
    if cells.length < 3 then st
    else
      let firstCell := cells.getD 0 ""
      match findCatId firstCell.data with
      | some cid =>
        let categoryName := (categoryDefFor cid).getD (extractCategoryName firstCell)
        -- cells[columnIndex] || cells[0]
        let description0 :=
          if cells.getD columnIndex "" ≠ "" then cells.getD columnIndex ""
          else cells.getD 0 ""
        let description := cleanDescription description0 (some cid)
        if description ≠ "" ∧ 10 < description.length then
          (cats ++ [⟨cid, categoryName, description⟩], some cid)
        else (cats, some cid)
      | none =>
        match curId with
        | some cid =>
          if cells.getD columnIndex "" ≠ "" then
            let additionalText := cleanDescription (cells.getD columnIndex "") none
            if additionalText ≠ "" ∧ 10 < additionalText.length then
              match cats.getLast? with
              | some lastCat =>
                if lastCat.id = cid then
                  (cats.dropLast ++
                    [{ lastCat with
                        description := lastCat.description ++ "\n\n" ++ additionalText }],
                   curId)
                else (cats, curId)
              | none => (cats, curId)
            else (cats, curId)
          else (cats, curId)
        | none => st

/-- Model of `parseTableRows(tableText, phase)` (lines 182-255). -/
def parseTableRows (tableText : String) (phase : String) : Criteria :=
  let columnIndex := phaseColumn phase
  let lines := (splitOnChar '\n' tableText.data).map (fun g => (⟨g⟩ : String))
  let st := lines.foldl (parseRow columnIndex) ([], none)
  { phase := phase, categories := st.1 }

/-- Model of `phaseDescriptions[phase]` of `getDefaultCriteria`; an unknown phase
interpolates as the string "undefined". -/
def phaseDescriptionFor (phase : String) : String :=
  (((([("proposal", "planned or proposed approach"),
       ("mid", "current implementation and progress"),
       ("end", "final outcomes and compliance")] :
      List (String × String)).find? (fun p => p.1 == phase)).map (·.2)).getD
    "undefined")

/-- Model of `getDefaultCriteria(phase)` (lines 308-325). -/
def getDefaultCriteria (phase : String) : Criteria :=
  { phase := phase
    categories := CATEGORY_DEFINITIONS.map (fun p =>
      { id := p.1
        name := p.2
        description := "Evaluate the " ++ phaseDescriptionFor phase ++ " for " ++
          lowerStr p.2 ++ "." }) }

/-- Lines 161-162: the table portion, from `Table 2` to the next major
section (`text.substring(table2Start, tableEnd)` or to the end). -/
def tableSlice (text : String) (table2Start : Nat) : String :=
  let cs := text.data
  match indexOfFrom cs "\n# ".data (table2Start + 1) with
  | some tableEnd => ⟨(cs.drop table2Start).take (tableEnd - table2Start)⟩
  | none => ⟨cs.drop table2Start⟩

/-- Model of `extractCriteria(text, phase)` (lines 150-174). -/
def extractCriteria (text : String) (phase : String) : Criteria :=
  match indexOfAux text.data "Table 2".data 0 with
  | none => getDefaultCriteria phase
  | some table2Start =>
    let criteria := parseTableRows (tableSlice text table2Start) phase
    if criteria.categories = [] then getDefaultCriteria phase else criteria

/-! ### validateCriteria (criteria-extractor.js, lines 332-353) -/

/-- Model of `validateCriteria(criteria)`: a pair (valid, message).  The totality
of the Lean types discharges the null/array checks; the remaining checks
are the emptiness check and the per-category field check. -/
def validateCriteria (c : Criteria) : Bool × String :=
  if c.categories = [] then
    (false, "No evaluation categories found")
  else if c.categories.any
      (fun cat => cat.id = "" ∨ cat.name = "" ∨ cat.description = "") then
    (false, "Invalid category structure: missing id, name, or description")
  else
    (true, toString c.categories.length ++ " categories loaded successfully")

/-! ### evaluate (evaluator.js, lines 17-94)

The orchestrator calls out to `FileParser.parseFile` and
`LLMService.buildEvaluationPrompt` / `evaluateDMP`, which live outside
this module; they are abstracted as `Except`-valued stage inputs (an
`.error` models the stage throwing).  `extractCriteria`,
`validateCriteria` and `processResults` are the embedded functions.
The metadata object (file names, phase, date, model) is attached in
both branches and carries no logic, so it is omitted; `llmCalled`
records whether step 4 (the LLM network call) was reached. -/

/-- Result of `evaluate`: the `{success, results?/error, metadata}`
object, plus the `llmCalled` instrumentation bit. -/
structure EvalOutcome where
  success : Bool
  error : Option String
  results : Option ProcessedResults
  llmCalled : Bool
deriving DecidableEq, Repr

/-- Model of `evaluate(criteriaFile, dmpFile, phase, onProgress)`: any stage
throwing is caught by the top-level `try/catch` and becomes
`{success:false, error: message}`. -/
def evaluate (criteriaParse : Except String String)
    (dmpParse : Except String String) (phase : String)
    (buildPrompt : Except String Unit)
    (llm : Except String RawResults) : EvalOutcome :=
  match criteriaParse with
  | .error e => ⟨false, some e, none, false⟩
  | .ok criteriaText =>
    let criteria := extractCriteria criteriaText phase
    -- lines 26-29: validation failure throws `Invalid criteria: ...`
    let v := validateCriteria criteria
    if v.1 = false then ⟨false, some ("Invalid criteria: " ++ v.2), none, false⟩
    else
      match dmpParse with
      | .error e => ⟨false, some e, none, false⟩
      | .ok dmpText =>
        -- lines 43-45: the 100-character floor
        if dmpText.length < 100 then
          ⟨false, some "DMP document is too short. Please provide a complete DMP.",
           none, false⟩
        else
          match buildPrompt with
          | .error e => ⟨false, some e, none, false⟩
          | .ok _ =>
            match llm with
            | .error e => ⟨false, some e, none, true⟩
            | .ok raw => ⟨true, none, some (processResults raw criteria), true⟩

/-! ### retryWithBackoff (api-config.js, lines 433-478)

`fetchFn` is abstracted as a map from the attempt index to its outcome;
`Response.ok` is `200 ≤ status < 300` per the fetch spec.  The model
returns the outcome together with the list of awaited delays (in ms)
and the number of calls made to `fetchFn`. -/

/-- Outcome of one `fetchFn()` call: a settled response with an HTTP
status, or a network-level rejection. -/
inductive FetchResult where
  | resp (status : Nat)
  | err (msg : String)
deriving DecidableEq, Repr

/-- Model of `response.ok`. -/
def respOk (status : Nat) : Bool := 200 ≤ status ∧ status < 300

deriving instance DecidableEq for Except

/-- What `retryWithBackoff` produced: the returned response status or
the thrown message, the delays awaited, and the calls made. -/
structure RetryOutcome where
  result : Except String Nat
  delays : List Nat
  calls : Nat
deriving DecidableEq, Repr

/-- The `for (attempt = 0; attempt <= maxRetries; attempt++)` loop;
`remaining` counts the iterations left (`maxRetries + 1 - attempt`). -/
def retryGo (f : Nat → FetchResult) (maxRetries initialDelay : Nat) :
    Nat → Nat → Option String → List Nat → Nat → RetryOutcome
  | 0, _, lastError, delays, calls =>
    -- loop exhausted: throw
    ⟨.error ("All retry attempts failed. Last error: " ++ lastError.getD "Unknown error"),
     delays, calls⟩
  | remaining + 1, attempt, lastError, delays, calls =>
    match f attempt with
    | .resp status =>
      if respOk status then ⟨.ok status, delays, calls + 1⟩
      else if 500 ≤ status ∧ attempt < maxRetries then
        retryGo f maxRetries initialDelay remaining (attempt + 1) lastError
          (delays ++ [initialDelay * 2 ^ attempt]) (calls + 1)
      else if status = 429 ∧ attempt < maxRetries then
        retryGo f maxRetries initialDelay remaining (attempt + 1) lastError
          (delays ++ [5000 * 2 ^ attempt]) (calls + 1)
      else ⟨.ok status, delays, calls + 1⟩
    | .err m =>
      if attempt < maxRetries then
        retryGo f maxRetries initialDelay remaining (attempt + 1) (some m)
          (delays ++ [initialDelay * 2 ^ attempt]) (calls + 1)
      else
        -- last attempt: record the error, no delay, loop then exits
        retryGo f maxRetries initialDelay remaining (attempt + 1) (some m) delays (calls + 1)

/-- Model of `retryWithBackoff(fetchFn, maxRetries, initialDelay)`; the source
defaults are `maxRetries = 3`, `initialDelay = 2000`. -/
def retryWithBackoff (f : Nat → FetchResult) (maxRetries initialDelay : Nat) :
    RetryOutcome :=
  retryGo f maxRetries initialDelay (maxRetries + 1) 0 none [] 0

/-! ### parseSSEStream (api-config.js, lines 519-605)

The byte stream is abstracted as the list of decoded text chunks
delivered by `reader.read()`, and `JSON.parse` plus the
`chunk.choices?.[0]?.delta` / `finish_reason` field accesses as a map
`jparse` from the data payload to the extracted fields (`none` models a
payload on which `JSON.parse` throws). -/

/-- The `delta` object of an SSE event. -/
structure Delta where
  reasoning : Option String
  content : Option String
deriving DecidableEq, Repr

/-- The fields of a parsed SSE event that the loop reads. -/
structure SSEChunk where
  delta : Option Delta
  finishReason : Option String
deriving DecidableEq, Repr

/-- The two accumulators of `parseSSEStream`. -/
structure SSEState where
  content : String
  reasoning : String
deriving DecidableEq, Repr

/-- The `for (const line of lines)` body (lines 546-592).  Returning
without recursing models `break`, which leaves the line loop only: the
enclosing `while` keeps reading the stream. -/
def processSSELines (jparse : String → Option SSEChunk) :
    List (List Char) → SSEState → SSEState
  | [], st => st
  | line :: rest, st =>
    let trimmedLine := trimList line
    if trimmedLine = [] then processSSELines jparse rest st
    else if "data: ".data.isPrefixOf trimmedLine then
      let data : String := ⟨trimmedLine.drop 6⟩
      if data = "[DONE]" then st
      else
        match jparse data with
        | none => processSSELines jparse rest st
        | some chunk =>
          match chunk.delta with
          | none => processSSELines jparse rest st
          | some delta =>
            let st1 :=
              match delta.reasoning with
              | some r => if r = "" then st else { st with reasoning := st.reasoning ++ r }
              | none => st
            let st2 :=
              match delta.content with
              | some c => if c = "" then st1 else { st1 with content := st1.content ++ c }
              | none => st1
            match chunk.finishReason with
            | some fr =>
              if fr = "stop" ∨ fr = "length" then st2
              else processSSELines jparse rest st2
            | none => processSSELines jparse rest st2
    else processSSELines jparse rest st

/-- The `while (true)` read loop (lines 526-594): append the chunk to
the buffer, split on newlines, keep the trailing incomplete line in the
buffer, and process the complete lines; at end of stream the leftover
buffer is discarded. -/
def parseSSEGo (jparse : String → Option SSEChunk) :
    List String → List Char → SSEState → SSEState
  | [], _buffer, st => st
  | chunk :: rest, buffer, st =>
    let lines := splitOnChar '\n' (buffer ++ chunk.data)
    let newBuffer := lines.getLast?.getD []
    parseSSEGo jparse rest newBuffer (processSSELines jparse lines.dropLast st)

/-- Model of `parseSSEStream(stream, onChunk)`: returns
`accumulatedContent || accumulatedReasoning`. -/
def parseSSEStream (jparse : String → Option SSEChunk) (chunks : List String) :
    String :=
  let st := parseSSEGo jparse chunks [] ⟨"", ""⟩
  if st.content = "" then st.reasoning else st.content

/-- A concrete JSON-parse oracle: exactly the payload text
`{"choices":[{"delta":{"content":"x"}}]}` (on which `JSON.parse`
succeeds and yields a delta with content `"x"`) parses; every other
payload is treated as malformed. -/
def jparseEx : String → Option SSEChunk := fun s =>
  if s = "\x7b\"choices\":[\x7b\"delta\":\x7b\"content\":\"x\"\x7d\x7d]\x7d"
  then some ⟨some ⟨none, some "x"⟩, none⟩
  else none

/-- The specification's sort order: ascending by the leading integer of
the id, ties broken by lexical comparison of the full id string. -/
def numericMajorLe (a b : CategoryResult) : Prop :=
  ∀ x y, parseIntJS a.id = some x → parseIntJS b.id = some y →
    x < y ∨ (x = y ∧ lexLt b.id.data a.id.data = false)

/-! ## Claim theorems -/

/-- C7: for every input text and phase, if the text contains no table
marker, or table parsing yields zero categories, `extractCriteria`
returns the phase's default rubric containing exactly 16 fixed category
ids; `extractCriteria` never returns a rubric with an empty category
list. -/
theorem claim_C7 :
    (∀ text phase, containsStr text "Table 2" = false →
      extractCriteria text phase = getDefaultCriteria phase) ∧
    (∀ text phase t2, indexOfAux text.data "Table 2".data 0 = some t2 →
      (parseTableRows (tableSlice text t2) phase).categories = [] →
      extractCriteria text phase = getDefaultCriteria phase) ∧
    (∀ phase, (getDefaultCriteria phase).categories.map (·.id) =
      ["1a", "1b", "2a", "2b", "3a", "3b", "3c", "4a", "4b", "4c",
       "5a", "5b", "5c", "5d", "6a", "6b"]) ∧
    (∀ text phase, (extractCriteria text phase).categories ≠ []) := by
  refine ⟨?_, ?_, ?_, ?_⟩
  · intro text phase h
    unfold containsStr at h
    cases h' : indexOfAux text.data "Table 2".data 0 with
    | none => unfold extractCriteria; rw [h']
    | some t2 => rw [h'] at h; simp at h
  · intro text phase t2 h h2
    unfold extractCriteria
    rw [h]
    simp [h2]
  · intro phase; rfl
  · intro text phase
    unfold extractCriteria
    cases h : indexOfAux text.data "Table 2".data 0 with
    | none => simp [getDefaultCriteria, CATEGORY_DEFINITIONS]
    | some t2 =>
      by_cases h2 : (parseTableRows (tableSlice text t2) phase).categories = []
      · simp [h2, getDefaultCriteria, CATEGORY_DEFINITIONS]
      · simp [h2]

/-- C7 witness: a text without the marker falls back to the default
rubric; a text whose table parses to nothing falls back too; the result
is never empty. -/
theorem claim_C7_witness :
    extractCriteria "plain text" "proposal" = getDefaultCriteria "proposal" ∧
    extractCriteria "Table 2" "end" = getDefaultCriteria "end" ∧
    (extractCriteria "Table 2" "mid").categories ≠ [] :=
  ⟨claim_C7.1 "plain text" "proposal" (by decide),
   claim_C7.2.1 "Table 2" "end" 0 (by decide) (by decide),
   claim_C7.2.2.2 "Table 2" "mid"⟩

/-- C8 counterexample: a table that repeats the `1a` marker on two rows
yields a rubric with the id `1a` twice, so the ids of an extracted
rubric are not always pairwise distinct. -/
theorem claim_C8_counterexample :
    ((extractCriteria
        "Table 2\n| 1a aaaaaaaaaaaaaaaa | x | y |\n| 1a bbbbbbbbbbbbbbbb | x | y |"
        "proposal").categories.map (·.id)) = ["1a", "1a"] ∧
    ¬ ((extractCriteria
        "Table 2\n| 1a aaaaaaaaaaaaaaaa | x | y |\n| 1a bbbbbbbbbbbbbbbb | x | y |"
        "proposal").categories.map (·.id)).Nodup := by
  exact ⟨by decide, by decide⟩

/-- C8 amended: the default rubric returned on fallback has pairwise
distinct category ids (a rubric parsed from a table can repeat an id
when the table repeats a category marker). -/
theorem claim_C8_amended :
    ∀ phase, ((getDefaultCriteria phase).categories.map (·.id)).Nodup := by
  intro phase
  have h : ((getDefaultCriteria phase).categories.map (·.id)) =
      ["1a", "1b", "2a", "2b", "3a", "3b", "3c", "4a", "4b", "4c",
       "5a", "5b", "5c", "5d", "6a", "6b"] := rfl
  rw [h]
  decide

/-- C5: every score produced by `processResults` lies in [0, 100]
(`-5` clamps to `0` and `150` to `100`; a missing score is the falsy
`0`, which stays `0`), and a raw category without a status gets its
status from the score through `determineStatus`, whose boundary mapping
is 90→excellent, 89→good, 75→good, 74→fair, 60→fair, 59→poor,
0→poor. -/
theorem claim_C5 :
    (∀ raw crit c, c ∈ (processResults raw crit).categories →
      0 ≤ c.score ∧ c.score ≤ 100) ∧
    ((processResults ⟨0, some [⟨"1a", "A", -5, "s", "f"⟩, ⟨"1b", "B", 150, "s", "f"⟩]⟩
        ⟨"proposal", []⟩).categories.map (·.score) = [0, 100]) ∧
    (∀ cat : RawCategory, cat.status = "" →
      (normalizeCategory cat).status = determineStatus cat.score) ∧
    (determineStatus 90 = "excellent" ∧ determineStatus 89 = "good" ∧
     determineStatus 75 = "good" ∧ determineStatus 74 = "fair" ∧
     determineStatus 60 = "fair" ∧ determineStatus 59 = "poor" ∧
     determineStatus 0 = "poor") := by
  refine ⟨?_, by decide, ?_, by decide⟩
  · intro raw crit c hc
    have hc1 : c ∈ fillMissing
        (match raw.categories with
         | some cs => cs.map normalizeCategory
         | none => []) crit.categories := by
      simpa [processResults, List.mem_insertionSort] using hc
    unfold fillMissing at hc1
    rcases List.mem_append.mp hc1 with hl | hr
    · cases hraw : raw.categories with
      | none => rw [hraw] at hl; simp at hl
      | some cs =>
        rw [hraw] at hl
        rcases List.mem_map.mp hl with ⟨rc, _, hrc⟩
        subst hrc
        simp only [normalizeCategory]
        omega
    · rcases List.mem_map.mp hr with ⟨cc, _, hcc⟩
      subst hcc
      simp [placeholderFor]
  · intro cat h
    simp [normalizeCategory, h]

/-- C5 witness: the clamp bound applied to a concrete member of a
concrete `processResults` output, and the status derivation applied to
a concrete status-less raw category. -/
theorem claim_C5_witness :
    ((⟨"1b", "B", 100, "s", "f"⟩ : CategoryResult) ∈
        (processResults ⟨0, some [⟨"1a", "A", -5, "s", "f"⟩, ⟨"1b", "B", 150, "s", "f"⟩]⟩
          ⟨"proposal", []⟩).categories ∧
      0 ≤ (100 : Int) ∧ (100 : Int) ≤ 100) ∧
    ((⟨"1a", "A", 95, "", "f"⟩ : RawCategory).status = "" ∧
      (normalizeCategory ⟨"1a", "A", 95, "", "f"⟩).status = determineStatus 95) :=
  ⟨⟨by decide,
    claim_C5.1 ⟨0, some [⟨"1a", "A", -5, "s", "f"⟩, ⟨"1b", "B", 150, "s", "f"⟩]⟩
      ⟨"proposal", []⟩ ⟨"1b", "B", 100, "s", "f"⟩ (by decide)⟩,
   ⟨rfl, claim_C5.2.2.1 ⟨"1a", "A", 95, "", "f"⟩ rfl⟩⟩

/-- C6: `processResults` takes `overallScore` from the raw output when
it is truthy; when it is missing or zero the output `overallScore` is
the rounded mean of the normalized category scores, and 0 when there
are no categories. -/
theorem claim_C6 (raw : RawResults) (crit : Criteria) :
    (raw.overallScore ≠ 0 →
      (processResults raw crit).overallScore = raw.overallScore) ∧
    (∀ rcs, raw.overallScore = 0 → raw.categories = some rcs → rcs ≠ [] →
      (processResults raw crit).overallScore =
        roundMean ((rcs.map normalizeCategory).map (·.score))) ∧
    (raw.overallScore = 0 → (raw.categories = none ∨ raw.categories = some []) →
      (processResults raw crit).overallScore = 0) := by
  refine ⟨?_, ?_, ?_⟩
  · intro h
    simp [processResults, h]
  · intro rcs h hr hne
    have hlen : 0 < (rcs.map normalizeCategory).length := by
      simpa [List.length_map] using List.length_pos.mpr hne
    simp [processResults, h, hr, hlen]
    exact fun h' => absurd h' hne
  · intro h hcats
    rcases hcats with hn | he
    · simp [processResults, h, hn]
    · simp [processResults, h, he]

/-- C2: `evaluate` never lets an exception escape — every outcome is
either a success with no error or a failure carrying the thrown
message; a stage failure surfaces as `{success:false, error}` (shown
for the criteria-parse stage and the LLM stage); and a decoded DMP
document shorter than 100 characters resolves to `success:false` with
the too-short message before the LLM network call is made. -/
theorem claim_C2 :
    (∀ cp dp phase bp llm,
      ((evaluate cp dp phase bp llm).success = true ∧
        (evaluate cp dp phase bp llm).error = none) ∨
      ((evaluate cp dp phase bp llm).success = false ∧
        ((evaluate cp dp phase bp llm).error).isSome = true)) ∧
    (∀ e dp phase bp llm,
      evaluate (.error e) dp phase bp llm = ⟨false, some e, none, false⟩) ∧
    (∀ ct s phase bp llm,
      (validateCriteria (extractCriteria ct phase)).1 = true → s.length < 100 →
      evaluate (.ok ct) (.ok s) phase bp llm =
        ⟨false, some "DMP document is too short. Please provide a complete DMP.",
         none, false⟩) ∧
    (∀ ct s phase e,
      (validateCriteria (extractCriteria ct phase)).1 = true → ¬ s.length < 100 →
      evaluate (.ok ct) (.ok s) phase (.ok ()) (.error e) =
        ⟨false, some e, none, true⟩) := by
  refine ⟨?_, ?_, ?_, ?_⟩
  · intro cp dp phase bp llm
    cases cp <;> cases dp <;> cases bp <;> cases llm <;>
      simp only [evaluate] <;> (try split_ifs) <;> simp
  · intro e dp phase bp llm
    simp [evaluate]
  · intro ct s phase bp llm hv hl
    simp [evaluate, hv, hl]
  · intro ct s phase e hv hl
    simp [evaluate, hv, hl]

/-- C2 witness: with valid default criteria, a 50-character DMP text
fails with the too-short message and no LLM call; with a 100-character
text, a throwing LLM stage is caught and reported. -/
theorem claim_C2_witness :
    evaluate (.ok "no table") (.ok "01234567890123456789012345678901234567890123456789")
      "proposal" (.ok ()) (.ok ⟨0, none⟩) =
      ⟨false, some "DMP document is too short. Please provide a complete DMP.",
       none, false⟩ ∧
    evaluate (.ok "no table")
      (.ok ("0123456789012345678901234567890123456789012345678901234567890123456789012345678901234567890123456789"))
      "proposal" (.ok ()) (.error "network down") =
      ⟨false, some "network down", none, true⟩ :=
  ⟨claim_C2.2.2.1 "no table" "01234567890123456789012345678901234567890123456789"
      "proposal" (.ok ()) (.ok ⟨0, none⟩) (by decide) (by decide),
   claim_C2.2.2.2 "no table"
      "0123456789012345678901234567890123456789012345678901234567890123456789012345678901234567890123456789"
      "proposal" "network down" (by decide) (by decide)⟩

/-- C4 counterexample: a `[DONE]` data line does not end stream
consumption — a content event arriving in a later read chunk is still
parsed and accumulated, so the result is `"x"`, not `""`.  (The `break`
on `[DONE]` leaves only the inner line loop; the outer read loop keeps
consuming.) -/
theorem claim_C4_counterexample :
    parseSSEStream jparseEx
      ["data: [DONE]\n",
       "data: \x7b\"choices\":[\x7b\"delta\":\x7b\"content\":\"x\"\x7d\x7d]\x7d\n"] = "x" ∧
    "x" ≠ "" := ⟨by decide, by decide⟩

/-- C4 amended: a `[DONE]` payload stops processing of the remaining
lines buffered from the current read only — a chunk consisting of a
`[DONE]` line is a no-op prefix and consumption continues with the
following reads; a data line with malformed JSON is skipped without
aborting the stream and contributes nothing; the function returns the
accumulated regular content, or the accumulated reasoning content when
the regular content is empty. -/
theorem claim_C4_amended :
    (∀ jp rest, parseSSEStream jp ("data: [DONE]\n" :: rest) = parseSSEStream jp rest) ∧
    (∀ jp (l : List Char) ls st, "data: ".data.isPrefixOf (trimList l) →
      (⟨(trimList l).drop 6⟩ : String) ≠ "[DONE]" →
      jp ⟨(trimList l).drop 6⟩ = none →
      processSSELines jp (l :: ls) st = processSSELines jp ls st) ∧
    (∀ jp (l : List Char) ls st, "data: ".data.isPrefixOf (trimList l) →
      (⟨(trimList l).drop 6⟩ : String) = "[DONE]" →
      processSSELines jp (l :: ls) st = st) ∧
    (∀ jp chunks, (parseSSEGo jp chunks [] ⟨"", ""⟩).content ≠ "" →
      parseSSEStream jp chunks = (parseSSEGo jp chunks [] ⟨"", ""⟩).content) ∧
    (∀ jp chunks, (parseSSEGo jp chunks [] ⟨"", ""⟩).content = "" →
      parseSSEStream jp chunks = (parseSSEGo jp chunks [] ⟨"", ""⟩).reasoning) := by
  refine ⟨?_, ?_, ?_, ?_, ?_⟩
  · intro jp rest
    rfl
  · intro jp l ls st hpre hne hjp
    have ht : ¬ trimList l = [] := by
      intro h; rw [h] at hpre; simp [List.isPrefixOf] at hpre
    simp [processSSELines, ht, hpre, hne, hjp]
  · intro jp l ls st hpre hdone
    have ht : ¬ trimList l = [] := by
      intro h; rw [h] at hpre; simp [List.isPrefixOf] at hpre
    simp [processSSELines, ht, hpre, hdone]
  · intro jp chunks h
    simp [parseSSEStream, h]
  · intro jp chunks h
    simp [parseSSEStream, h]

/-- C4 amended witness: the skip, stop and return rules applied at
concrete streams. -/
theorem claim_C4_witness :
    parseSSEStream jparseEx ["data: [DONE]\n", "data: junk\n"] =
      parseSSEStream jparseEx ["data: junk\n"] ∧
    processSSELines jparseEx ["data: junk".data] ⟨"", ""⟩ =
      processSSELines jparseEx [] ⟨"", ""⟩ ∧
    processSSELines jparseEx ["data: [DONE]".data, "data: junk".data] ⟨"a", "b"⟩ =
      ⟨"a", "b"⟩ ∧
    parseSSEStream jparseEx
      ["data: \x7b\"choices\":[\x7b\"delta\":\x7b\"content\":\"x\"\x7d\x7d]\x7d\n"] =
      (parseSSEGo jparseEx
        ["data: \x7b\"choices\":[\x7b\"delta\":\x7b\"content\":\"x\"\x7d\x7d]\x7d\n"]
        [] ⟨"", ""⟩).content ∧
    parseSSEStream jparseEx ["data: junk\n"] =
      (parseSSEGo jparseEx ["data: junk\n"] [] ⟨"", ""⟩).reasoning :=
  ⟨claim_C4_amended.1 jparseEx ["data: junk\n"],
   claim_C4_amended.2.1 jparseEx "data: junk".data [] ⟨"", ""⟩
     (by decide) (by decide) (by decide),
   claim_C4_amended.2.2.1 jparseEx "data: [DONE]".data ["data: junk".data] ⟨"a", "b"⟩
     (by decide) (by decide),
   claim_C4_amended.2.2.2.1 jparseEx
     ["data: \x7b\"choices\":[\x7b\"delta\":\x7b\"content\":\"x\"\x7d\x7d]\x7d\n"]
     (by decide),
   claim_C4_amended.2.2.2.2 jparseEx ["data: junk\n"] (by decide)⟩

/-- The retry loop makes at most `c + r` calls when entered with `c`
calls made and `r` iterations remaining. -/
theorem retryGo_calls_le (f : Nat → FetchResult) (M D : Nat) :
    ∀ r a le d c, (retryGo f M D r a le d c).calls ≤ c + r := by
  intro r
  induction r with
  | zero => intro a le d c; simp [retryGo]
  | succ n ih =>
    intro a le d c
    unfold retryGo
    cases hf : f a with
    | resp s =>
      simp only [hf]
      split_ifs with h1 h2 h3
      · show c + 1 ≤ c + (n + 1); omega
      · exact (ih (a + 1) le _ (c + 1)).trans (by omega)
      · exact (ih (a + 1) le _ (c + 1)).trans (by omega)
      · show c + 1 ≤ c + (n + 1); omega
    | err m =>
      simp only [hf]
      split_ifs with h1
      · exact (ih (a + 1) (some m) _ (c + 1)).trans (by omega)
      · exact (ih (a + 1) (some m) d (c + 1)).trans (by omega)

/-- When the retry loop ends in a thrown error, every remaining
iteration was consumed: the loop exits only after all attempts. -/
theorem retryGo_error_calls (f : Nat → FetchResult) (M D : Nat) :
    ∀ r a le d c, (retryGo f M D r a le d c).result.isOk = false →
      (retryGo f M D r a le d c).calls = c + r := by
  intro r
  induction r with
  | zero => intro a le d c _; simp [retryGo]
  | succ n ih =>
    intro a le d c h
    unfold retryGo at h ⊢
    cases hf : f a with
    | resp s =>
      simp only [hf] at h ⊢
      split_ifs at h ⊢ with h1 h2 h3
      · simp [Except.isOk, Except.toBool] at h
      · rw [ih (a + 1) le _ (c + 1) h]; omega
      · rw [ih (a + 1) le _ (c + 1) h]; omega
      · simp [Except.isOk, Except.toBool] at h
    | err m =>
      simp only [hf] at h ⊢
      split_ifs at h ⊢ with h1
      · rw [ih (a + 1) (some m) _ (c + 1) h]; omega
      · rw [ih (a + 1) (some m) d (c + 1) h]; omega

/-- C3: with the source defaults (3 retries, 2000ms initial delay),
`retryWithBackoff` makes at most 4 calls (3 retries beyond the first);
an OK response returns immediately with no delay; two 500s then a
success return the success after exactly the delays 2000ms and 4000ms;
persistent 429 delays 5000ms doubling each attempt; any other non-OK
status returns immediately without retry; an error is thrown only after
all retries are exhausted (4 calls), as on a persistent network
error. -/
theorem claim_C3 :
    (∀ f, (retryWithBackoff f 3 2000).calls ≤ 4) ∧
    (∀ f s, respOk s = true → f 0 = .resp s →
      retryWithBackoff f 3 2000 = ⟨.ok s, [], 1⟩) ∧
    (retryWithBackoff (fun n => if n < 2 then .resp 500 else .resp 200) 3 2000 =
      ⟨.ok 200, [2000, 4000], 3⟩) ∧
    (retryWithBackoff (fun _ => .resp 429) 3 2000 =
      ⟨.ok 429, [5000, 10000, 20000], 4⟩) ∧
    (∀ f s, respOk s = false → s < 500 → s ≠ 429 → f 0 = .resp s →
      retryWithBackoff f 3 2000 = ⟨.ok s, [], 1⟩) ∧
    (∀ f, (retryWithBackoff f 3 2000).result.isOk = false →
      (retryWithBackoff f 3 2000).calls = 4) ∧
    (retryWithBackoff (fun _ => .err "boom") 3 2000 =
      ⟨.error "All retry attempts failed. Last error: boom", [2000, 4000, 8000], 4⟩) := by
  refine ⟨?_, ?_, by decide, by decide, ?_, ?_, by decide⟩
  · intro f
    exact retryGo_calls_le f 3 2000 4 0 none [] 0
  · intro f s hok hf
    show retryGo f 3 2000 4 0 none [] 0 = _
    unfold retryGo
    rw [hf]
    simp [hok]
  · intro f s hok h5 h429 hf
    show retryGo f 3 2000 4 0 none [] 0 = _
    unfold retryGo
    rw [hf]
    have h5' : ¬ (500 ≤ s) := by omega
    simp [hok, h5', h429]
  · intro f h
    exact retryGo_error_calls f 3 2000 4 0 none [] 0 h

/-- C3 witness: the parts with hypotheses applied at concrete
functions. -/
theorem claim_C3_witness :
    (retryWithBackoff (fun _ => .resp 204) 3 2000).calls ≤ 4 ∧
    retryWithBackoff (fun _ => .resp 204) 3 2000 = ⟨.ok 204, [], 1⟩ ∧
    retryWithBackoff (fun _ => .resp 404) 3 2000 = ⟨.ok 404, [], 1⟩ ∧
    (retryWithBackoff (fun _ => .err "down") 3 2000).calls = 4 :=
  ⟨claim_C3.1 (fun _ => .resp 204),
   claim_C3.2.1 (fun _ => .resp 204) 204 (by decide) rfl,
   claim_C3.2.2.2.2.1 (fun _ => .resp 404) 404 (by decide) (by decide) (by decide) rfl,
   claim_C3.2.2.2.2.2.1 (fun _ => .err "down") (by decide)⟩

/-! Order facts about the lexicographic comparison and the sort
comparator, needed for the sortedness claim. -/

theorem lexLt_trans : ∀ a b c : List Char,
    lexLt a b = true → lexLt b c = true → lexLt a c = true := by
  intro a
  induction a with
  | nil =>
    intro b c hab hbc
    cases b with
    | nil => simp [lexLt] at hab
    | cons y ys =>
      cases c with
      | nil => simp [lexLt] at hbc
      | cons z zs => simp [lexLt]
  | cons x xs ih =>
    intro b c hab hbc
    cases b with
    | nil => simp [lexLt] at hab
    | cons y ys =>
      cases c with
      | nil => simp [lexLt] at hbc
      | cons z zs =>
        simp only [lexLt] at hab hbc ⊢
        by_cases h1 : x < y
        · by_cases h2 : y < z
          · simp [lt_trans h1 h2]
          · rw [if_neg h2] at hbc
            by_cases h3 : z < y
            · rw [if_pos h3] at hbc; exact absurd hbc (by simp)
            · have hyz : y = z := le_antisymm (le_of_not_lt h3) (le_of_not_lt h2)
              subst hyz
              simp [h1]
        · rw [if_neg h1] at hab
          by_cases h1' : y < x
          · rw [if_pos h1'] at hab; exact absurd hab (by simp)
          · have hxy : x = y := le_antisymm (le_of_not_lt h1') (le_of_not_lt h1)
            subst hxy
            simp only [lt_self_iff_false, if_false] at hab
            by_cases h2 : x < z
            · simp [h2]
            · rw [if_neg h2] at hbc ⊢
              by_cases h3 : z < x
              · rw [if_pos h3] at hbc; exact absurd hbc (by simp)
              · rw [if_neg h3] at hbc ⊢
                exact ih ys zs hab hbc

theorem lexLt_asymm : ∀ a b : List Char, lexLt a b = true → lexLt b a = false := by
  intro a
  induction a with
  | nil =>
    intro b hab
    cases b with
    | nil => simp [lexLt] at hab
    | cons y ys => simp [lexLt]
  | cons x xs ih =>
    intro b hab
    cases b with
    | nil => simp [lexLt] at hab
    | cons y ys =>
      simp only [lexLt] at hab ⊢
      by_cases h1 : x < y
      · rw [if_neg (lt_asymm h1), if_pos h1]
      · rw [if_neg h1] at hab
        by_cases h2 : y < x
        · rw [if_pos h2] at hab; exact absurd hab (by simp)
        · rw [if_neg h2] at hab
          have hxy : x = y := le_antisymm (le_of_not_lt h2) (le_of_not_lt h1)
          subst hxy
          simp only [lt_self_iff_false, if_false]
          exact ih ys hab

theorem lexLt_eq_of_not : ∀ a b : List Char,
    lexLt a b = false → lexLt b a = false → a = b := by
  intro a
  induction a with
  | nil =>
    intro b hab _
    cases b with
    | nil => rfl
    | cons y ys => simp [lexLt] at hab
  | cons x xs ih =>
    intro b hab hba
    cases b with
    | nil => simp [lexLt] at hba
    | cons y ys =>
      simp only [lexLt] at hab hba
      by_cases h1 : x < y
      · rw [if_pos h1] at hab; exact absurd hab (by simp)
      · by_cases h2 : y < x
        · rw [if_pos h2] at hba; exact absurd hba (by simp)
        · have hxy : x = y := le_antisymm (le_of_not_lt h2) (le_of_not_lt h1)
          subst hxy
          simp only [lt_self_iff_false, if_false] at hab hba
          rw [ih ys hab hba]

theorem lexLt_false_trans (u v w : List Char)
    (h1 : lexLt v u = false) (h2 : lexLt w v = false) : lexLt w u = false := by
  cases h : lexLt w u
  · rfl
  · exfalso
    cases h3 : lexLt u v
    · have huv : u = v := lexLt_eq_of_not u v h3 h1
      subst huv
      rw [h] at h2
      exact Bool.noConfusion h2
    · have h4 := lexLt_trans w u v h h3
      rw [h4] at h2
      exact Bool.noConfusion h2

/-- The code's comparator on two categories with parseable id numbers is
exactly the numeric-major, lexically tie-broken order. -/
theorem catLe_iff (a b : CategoryResult) (x y : Int)
    (ha : parseIntJS a.id = some x) (hb : parseIntJS b.id = some y) :
    catLe a b ↔ (x < y ∨ (x = y ∧ lexLt b.id.data a.id.data = false)) := by
  unfold catLe catCompare
  rw [ha, hb]
  by_cases hxy : x = y
  · subst hxy
    simp only [ne_eq, not_true_eq_false, if_false, lt_irrefl, false_or, true_and]
    unfold lexCompare
    cases h1 : lexLt a.id.data b.id.data
    · cases h2 : lexLt b.id.data a.id.data
      · simp
      · simp
    · rw [lexLt_asymm _ _ h1]
      simp
  · have hm : (match some x, some y with
        | some x, some y => if x ≠ y then x - y else lexCompare a.id b.id
        | _, _ => (0 : Int)) = if x ≠ y then x - y else lexCompare a.id b.id := rfl
    rw [hm, if_pos hxy]
    constructor
    · intro h
      left
      omega
    · rintro (h | ⟨he, _⟩)
      · omega
      · exact absurd he hxy

theorem catLe_trans_of_isSome (a b c : CategoryResult)
    (ha : (parseIntJS a.id).isSome = true) (hb : (parseIntJS b.id).isSome = true)
    (hc : (parseIntJS c.id).isSome = true)
    (h1 : catLe a b) (h2 : catLe b c) : catLe a c := by
  obtain ⟨x, hx⟩ := Option.isSome_iff_exists.mp ha
  obtain ⟨y, hy⟩ := Option.isSome_iff_exists.mp hb
  obtain ⟨z, hz⟩ := Option.isSome_iff_exists.mp hc
  rcases (catLe_iff a b x y hx hy).mp h1 with h | ⟨he, hba⟩
  · rcases (catLe_iff b c y z hy hz).mp h2 with h' | ⟨he', _⟩
    · exact (catLe_iff a c x z hx hz).mpr (Or.inl (lt_trans h h'))
    · exact (catLe_iff a c x z hx hz).mpr (Or.inl (he' ▸ h))
  · rcases (catLe_iff b c y z hy hz).mp h2 with h' | ⟨he', hcb⟩
    · exact (catLe_iff a c x z hx hz).mpr (Or.inl (he ▸ h'))
    · exact (catLe_iff a c x z hx hz).mpr
        (Or.inr ⟨he.trans he', lexLt_false_trans _ _ _ hba hcb⟩)

theorem catLe_total_of_isSome (a b : CategoryResult)
    (ha : (parseIntJS a.id).isSome = true) (hb : (parseIntJS b.id).isSome = true) :
    catLe a b ∨ catLe b a := by
  obtain ⟨x, hx⟩ := Option.isSome_iff_exists.mp ha
  obtain ⟨y, hy⟩ := Option.isSome_iff_exists.mp hb
  rcases lt_trichotomy x y with h | h | h
  · exact Or.inl ((catLe_iff a b x y hx hy).mpr (Or.inl h))
  · cases hba : lexLt b.id.data a.id.data
    · exact Or.inl ((catLe_iff a b x y hx hy).mpr (Or.inr ⟨h, hba⟩))
    · exact Or.inr ((catLe_iff b a y x hy hx).mpr
        (Or.inr ⟨h.symm, lexLt_asymm _ _ hba⟩))
  · exact Or.inr ((catLe_iff b a y x hy hx).mpr (Or.inl h))

theorem pairwise_orderedInsert_catLe (x : CategoryResult) :
    ∀ l : List CategoryResult, (parseIntJS x.id).isSome = true →
      (∀ y ∈ l, (parseIntJS y.id).isSome = true) → l.Pairwise catLe →
      (List.orderedInsert catLe x l).Pairwise catLe := by
  intro l
  induction l with
  | nil => intro _ _ _; simp [List.orderedInsert]
  | cons y t ih =>
    intro hx hl hs
    rw [List.pairwise_cons] at hs
    rw [List.orderedInsert]
    by_cases h : catLe x y
    · rw [if_pos h]
      refine List.Pairwise.cons ?_ (List.Pairwise.cons hs.1 hs.2)
      intro z hz
      rcases List.mem_cons.mp hz with rfl | hz
      · exact h
      · exact catLe_trans_of_isSome x y z hx (hl y (by simp)) (hl z (by simp [hz]))
          h (hs.1 z hz)
    · rw [if_neg h]
      have hy : (parseIntJS y.id).isSome = true := hl y (by simp)
      have hyx : catLe y x := (catLe_total_of_isSome x y hx hy).resolve_left h
      refine List.Pairwise.cons ?_ (ih hx (fun z hz => hl z (by simp [hz])) hs.2)
      intro z hz
      rcases (List.mem_orderedInsert catLe).mp hz with rfl | hz
      · exact hyx
      · exact hs.1 z hz

theorem pairwise_insertionSort_catLe :
    ∀ l : List CategoryResult, (∀ y ∈ l, (parseIntJS y.id).isSome = true) →
      (l.insertionSort catLe).Pairwise catLe := by
  intro l
  induction l with
  | nil => intro _; simp [List.insertionSort]
  | cons x t ih =>
    intro hl
    rw [List.insertionSort]
    exact pairwise_orderedInsert_catLe x (t.insertionSort catLe) (hl x (by simp))
      (fun y hy => hl y (List.mem_cons_of_mem x ((List.mem_insertionSort catLe).mp hy)))
      (ih (fun y hy => hl y (by simp [hy])))

/-- Model of `map (·.id)` commutes with filtering by a predicate on the id. -/
theorem map_id_filter_mem (l : List Category) (L : List String) :
    (l.filter (fun c => !decide (c.id ∈ L))).map (·.id) =
      (l.map (·.id)).filter (fun x => !decide (x ∈ L)) := by
  induction l with
  | nil => rfl
  | cons c t ih =>
    by_cases h : c.id ∈ L
    · simp [List.filter_cons, h, ih]
    · simp [List.filter_cons, h, ih]

/-- C1: when the rubric ids are distinct and the raw model output
carries distinct, nonempty ids all drawn from the rubric (possibly
omitting some), `processResults` returns exactly one category per
rubric id — the output id list is a permutation of the rubric id list —
and every omitted rubric category appears as the fixed placeholder
(score 0, status poor, fixed feedback text). -/
theorem claim_C1 (raw : RawResults) (crit : Criteria) (rcs : List RawCategory)
    (hr : raw.categories = some rcs)
    (hC : (crit.categories.map (·.id)).Nodup)
    (hR : (rcs.map (·.id)).Nodup)
    (hids : ∀ rc ∈ rcs, rc.id ≠ "" ∧ rc.id ∈ crit.categories.map (·.id)) :
    (processResults raw crit).categories.length = crit.categories.length ∧
    ((processResults raw crit).categories.map (·.id)).Perm
      (crit.categories.map (·.id)) ∧
    (∀ cc ∈ crit.categories, cc.id ∉ rcs.map (·.id) →
      placeholderFor cc ∈ (processResults raw crit).categories) := by
  have hcats : (processResults raw crit).categories =
      (fillMissing (rcs.map normalizeCategory) crit.categories).insertionSort catLe := by
    simp [processResults, hr]
  have hids0 : ((rcs.map normalizeCategory).map (·.id)) = rcs.map (·.id) := by
    rw [List.map_map]
    refine List.map_congr_left ?_
    intro rc hrc
    simp [normalizeCategory, (hids rc hrc).1]
  have hfill : ((fillMissing (rcs.map normalizeCategory) crit.categories).map (·.id)) =
      rcs.map (·.id) ++
        (crit.categories.map (·.id)).filter (fun x => !decide (x ∈ rcs.map (·.id))) := by
    unfold fillMissing
    simp only [hids0, List.map_append, List.map_map]
    congr 1
    rw [show ((fun x : CategoryResult => x.id) ∘ placeholderFor) =
      (fun c : Category => c.id) from rfl]
    exact map_id_filter_mem crit.categories (rcs.map (·.id))
  have hsubC : ∀ x ∈ rcs.map (·.id), x ∈ crit.categories.map (·.id) := by
    intro x hx
    rcases List.mem_map.mp hx with ⟨rc, hrc, hrx⟩
    subst hrx
    exact (hids rc hrc).2
  have hnodupF : ((crit.categories.map (·.id)).filter
      (fun x => !decide (x ∈ rcs.map (·.id)))).Nodup := hC.filter _
  have hdisj : List.Disjoint (rcs.map (·.id))
      ((crit.categories.map (·.id)).filter (fun x => !decide (x ∈ rcs.map (·.id)))) := by
    intro a haR haF
    have h2 := (List.mem_filter.mp haF).2
    simp only [Bool.not_eq_eq_eq_not, Bool.not_true, decide_eq_false_iff_not] at h2
    exact h2 haR
  have hp : (rcs.map (·.id) ++
      (crit.categories.map (·.id)).filter (fun x => !decide (x ∈ rcs.map (·.id)))).Perm
      (crit.categories.map (·.id)) := by
    rw [List.perm_ext_iff_of_nodup (hR.append hnodupF hdisj) hC]
    intro a
    simp only [List.mem_append, List.mem_filter, Bool.not_eq_eq_eq_not, Bool.not_true,
      decide_eq_false_iff_not]
    constructor
    · rintro (h | ⟨hc, _⟩)
      · exact hsubC a h
      · exact hc
    · intro hc
      by_cases ha : a ∈ rcs.map (·.id)
      · exact Or.inl ha
      · exact Or.inr ⟨hc, ha⟩
  have hpermOut : ((processResults raw crit).categories.map (·.id)).Perm
      (crit.categories.map (·.id)) := by
    rw [hcats]
    have h1 := (List.perm_insertionSort catLe
      (fillMissing (rcs.map normalizeCategory) crit.categories)).map (·.id)
    rw [hfill] at h1
    exact h1.trans hp
  refine ⟨?_, hpermOut, ?_⟩
  · have h := hpermOut.length_eq
    simpa [List.length_map] using h
  · intro cc hcc hnotin
    rw [hcats, List.mem_insertionSort]
    unfold fillMissing
    apply List.mem_append_right
    apply List.mem_map.mpr
    refine ⟨cc, ?_, rfl⟩
    apply List.mem_filter.mpr
    refine ⟨hcc, ?_⟩
    simp only [hids0]
    simpa using hnotin

/-- C1 witness: a rubric of three categories, a raw output carrying two
of them; the output covers the three rubric ids once each and the
omitted category `2a` appears as the placeholder. -/
theorem claim_C1_witness :
    (processResults ⟨0, some [⟨"1b", "B", 70, "s", "f"⟩, ⟨"1a", "A", 80, "s", "f"⟩]⟩
        ⟨"p", [⟨"1a", "A", "d"⟩, ⟨"1b", "B", "d"⟩, ⟨"2a", "C", "d"⟩]⟩).categories.length =
      ([⟨"1a", "A", "d"⟩, ⟨"1b", "B", "d"⟩, ⟨"2a", "C", "d"⟩] : List Category).length ∧
    ((processResults ⟨0, some [⟨"1b", "B", 70, "s", "f"⟩, ⟨"1a", "A", 80, "s", "f"⟩]⟩
        ⟨"p", [⟨"1a", "A", "d"⟩, ⟨"1b", "B", "d"⟩, ⟨"2a", "C", "d"⟩]⟩).categories.map
        (·.id)).Perm (["1a", "1b", "2a"]) ∧
    placeholderFor ⟨"2a", "C", "d"⟩ ∈
      (processResults ⟨0, some [⟨"1b", "B", 70, "s", "f"⟩, ⟨"1a", "A", 80, "s", "f"⟩]⟩
        ⟨"p", [⟨"1a", "A", "d"⟩, ⟨"1b", "B", "d"⟩, ⟨"2a", "C", "d"⟩]⟩).categories := by
  have h := claim_C1 ⟨0, some [⟨"1b", "B", 70, "s", "f"⟩, ⟨"1a", "A", 80, "s", "f"⟩]⟩
    ⟨"p", [⟨"1a", "A", "d"⟩, ⟨"1b", "B", "d"⟩, ⟨"2a", "C", "d"⟩]⟩
    [⟨"1b", "B", 70, "s", "f"⟩, ⟨"1a", "A", 80, "s", "f"⟩] rfl
    (by decide) (by decide) (by decide)
  exact ⟨h.1, h.2.1, h.2.2 ⟨"2a", "C", "d"⟩ (by decide) (by decide)⟩

/-- C9: the categories list returned by `processResults` is sorted
ascending by the leading integer of the id, ties broken by lexical
comparison of the full id string (stated for outputs whose ids all have
a leading integer, where the comparator is total and transitive). -/
theorem claim_C9 (raw : RawResults) (crit : Criteria)
    (hp : ∀ c ∈ (processResults raw crit).categories, (parseIntJS c.id).isSome = true) :
    (processResults raw crit).categories.Pairwise numericMajorLe := by
  obtain ⟨L, hL⟩ :
      ∃ L, (processResults raw crit).categories = List.insertionSort catLe L := by
    cases hr : raw.categories with
    | none => exact ⟨fillMissing [] crit.categories, by simp [processResults, hr]⟩
    | some cs =>
      exact ⟨fillMissing (cs.map normalizeCategory) crit.categories,
        by simp [processResults, hr]⟩
  rw [hL] at hp ⊢
  have hpw := pairwise_insertionSort_catLe L
    (fun y hy => hp y ((List.mem_insertionSort catLe).mpr hy))
  refine hpw.imp_of_mem ?_
  intro a b hamem hbmem hle
  intro x y hx hy
  exact (catLe_iff a b x y hx hy).mp hle

/-- C9 witness: ids `["10a","2b","1a","2a"]` come out in the order
`["1a","2a","2b","10a"]`, and the output is sorted in the
numeric-major, lexically tie-broken order. -/
theorem claim_C9_witness :
    (processResults ⟨50, some [⟨"10a", "N", 1, "s", "f"⟩, ⟨"2b", "N", 1, "s", "f"⟩,
        ⟨"1a", "N", 1, "s", "f"⟩, ⟨"2a", "N", 1, "s", "f"⟩]⟩
      ⟨"p", []⟩).categories.map (·.id) = ["1a", "2a", "2b", "10a"] ∧
    (processResults ⟨50, some [⟨"10a", "N", 1, "s", "f"⟩, ⟨"2b", "N", 1, "s", "f"⟩,
        ⟨"1a", "N", 1, "s", "f"⟩, ⟨"2a", "N", 1, "s", "f"⟩]⟩
      ⟨"p", []⟩).categories.Pairwise numericMajorLe :=
  ⟨by decide,
   claim_C9 ⟨50, some [⟨"10a", "N", 1, "s", "f"⟩, ⟨"2b", "N", 1, "s", "f"⟩,
      ⟨"1a", "N", 1, "s", "f"⟩, ⟨"2a", "N", 1, "s", "f"⟩]⟩ ⟨"p", []⟩ (by decide)⟩

/-- Round-half-up of `S/n` does not increase when the denominator grows
and the numerator stays put. -/
theorem roundDiv_anti (S n m : Nat) (hn : 1 ≤ n) (hnm : n ≤ m) :
    (2 * S + m) / (2 * m) ≤ (2 * S + n) / (2 * n) := by
  set k := (2 * S + m) / (2 * m) with hk
  rcases Nat.eq_zero_or_pos k with h0 | hpos
  · simp [h0]
  · rw [Nat.le_div_iff_mul_le (by omega : 0 < 2 * n)]
    have h1 : k * (2 * m) ≤ 2 * S + m := Nat.div_mul_le_self _ _
    nlinarith

/-- Appending score-0 entries to a nonempty list of nonnegative scores
never raises the rounded mean. -/
theorem roundMean_append_zeros_le (pre zs : List Int)
    (hpre : pre ≠ []) (hnn : ∀ x ∈ pre, 0 ≤ x) (hz : ∀ x ∈ zs, x = 0) :
    roundMean (pre ++ zs) ≤ roundMean pre := by
  have hzsum : zs.sum = 0 := List.sum_eq_zero hz
  have hsum : (pre ++ zs).sum = pre.sum := by rw [List.sum_append, hzsum, add_zero]
  have hs : 0 ≤ pre.sum := List.sum_nonneg hnn
  obtain ⟨S, hS⟩ : ∃ S : Nat, pre.sum = (S : Int) :=
    ⟨pre.sum.toNat, (Int.toNat_of_nonneg hs).symm⟩
  have hn : 1 ≤ pre.length := List.length_pos.mpr hpre
  unfold roundMean
  rw [hsum, List.length_append, hS]
  have e1 : (2 * (S : Int) + ((pre.length + zs.length : Nat) : Int)).toNat =
      2 * S + (pre.length + zs.length) := by omega
  have e2 : (2 * (S : Int) + ((pre.length : Nat) : Int)).toNat = 2 * S + pre.length := by
    omega
  rw [e1, e2]
  exact Int.ofNat_le.mpr (roundDiv_anti S pre.length (pre.length + zs.length) hn
    (Nat.le_add_right _ _))

/-- Model of `roundMean` only depends on the multiset of scores. -/
theorem roundMean_perm {l l' : List Int} (h : l.Perm l') : roundMean l = roundMean l' := by
  unfold roundMean
  rw [h.sum_eq, h.length_eq]

/-- C10: when `processResults` recomputes the overall score (raw value
falsy), the mean is taken over the categories present in the raw
output, before placeholders are appended; the score-0 placeholders
never lower the recomputed overall score below the rounded mean of the
final category list. -/
theorem claim_C10 (raw : RawResults) (crit : Criteria) (rcs : List RawCategory)
    (h0 : raw.overallScore = 0) (hr : raw.categories = some rcs) (hne : rcs ≠ []) :
    (processResults raw crit).overallScore =
      roundMean ((rcs.map normalizeCategory).map (·.score)) ∧
    roundMean ((processResults raw crit).categories.map (·.score)) ≤
      (processResults raw crit).overallScore := by
  have hlen : 0 < (rcs.map normalizeCategory).length := by
    simpa [List.length_map] using List.length_pos.mpr hne
  have hov : (processResults raw crit).overallScore =
      roundMean ((rcs.map normalizeCategory).map (·.score)) := by
    simp [processResults, h0, hr, hlen]
    exact fun h' => absurd h' hne
  refine ⟨hov, ?_⟩
  rw [hov]
  -- the output categories are a permutation of pre ++ placeholders
  have hcats : (processResults raw crit).categories =
      (fillMissing (rcs.map normalizeCategory) crit.categories).insertionSort catLe := by
    simp [processResults, hr]
  have hperm : ((processResults raw crit).categories.map (·.score)).Perm
      ((fillMissing (rcs.map normalizeCategory) crit.categories).map (·.score)) := by
    rw [hcats]
    exact (List.perm_insertionSort catLe _).map _
  rw [roundMean_perm hperm]
  unfold fillMissing
  rw [List.map_append]
  apply roundMean_append_zeros_le
  · intro h
    rw [List.map_eq_nil_iff] at h
    exact absurd (by rw [h] at hlen; exact hlen) (by simp)
  · intro x hx
    rcases List.mem_map.mp hx with ⟨c, hc, hcx⟩
    rcases List.mem_map.mp hc with ⟨rc, _, hrc⟩
    subst hcx; subst hrc
    simp [normalizeCategory]
  · intro x hx
    rcases List.mem_map.mp hx with ⟨c, hc, hcx⟩
    rcases List.mem_map.mp hc with ⟨cc, _, hcc⟩
    subst hcx; subst hcc
    rfl

/-- C10 witness: a concrete raw output with two scored categories and a
rubric with a third; the recomputed overall is the mean of the two raw
scores and is at least the mean over all three final categories. -/
theorem claim_C10_witness :
    (processResults ⟨0, some [⟨"1a", "A", 80, "s", "f"⟩, ⟨"1b", "B", 90, "s", "f"⟩]⟩
        ⟨"p", [⟨"1a", "A", "d"⟩, ⟨"1b", "B", "d"⟩, ⟨"2a", "C", "d"⟩]⟩).overallScore =
      roundMean ((([⟨"1a", "A", 80, "s", "f"⟩, ⟨"1b", "B", 90, "s", "f"⟩] :
        List RawCategory).map normalizeCategory).map (·.score)) ∧
    roundMean ((processResults ⟨0, some [⟨"1a", "A", 80, "s", "f"⟩, ⟨"1b", "B", 90, "s", "f"⟩]⟩
        ⟨"p", [⟨"1a", "A", "d"⟩, ⟨"1b", "B", "d"⟩, ⟨"2a", "C", "d"⟩]⟩).categories.map
        (·.score)) ≤
      (processResults ⟨0, some [⟨"1a", "A", 80, "s", "f"⟩, ⟨"1b", "B", 90, "s", "f"⟩]⟩
        ⟨"p", [⟨"1a", "A", "d"⟩, ⟨"1b", "B", "d"⟩, ⟨"2a", "C", "d"⟩]⟩).overallScore :=
  claim_C10 ⟨0, some [⟨"1a", "A", 80, "s", "f"⟩, ⟨"1b", "B", 90, "s", "f"⟩]⟩
    ⟨"p", [⟨"1a", "A", "d"⟩, ⟨"1b", "B", "d"⟩, ⟨"2a", "C", "d"⟩]⟩
    [⟨"1a", "A", 80, "s", "f"⟩, ⟨"1b", "B", 90, "s", "f"⟩] rfl rfl (by decide)

/-- C6 witness: the three branches at concrete inputs. -/
theorem claim_C6_witness :
    (processResults ⟨77, some [⟨"1a", "A", 10, "s", "f"⟩]⟩ ⟨"p", []⟩).overallScore = 77 ∧
    (processResults ⟨0, some [⟨"1a", "A", 10, "s", "f"⟩, ⟨"1b", "B", 21, "s", "f"⟩]⟩
        ⟨"p", []⟩).overallScore =
      roundMean (([⟨"1a", "A", 10, "s", "f"⟩,
        ⟨"1b", "B", 21, "s", "f"⟩] : List RawCategory).map normalizeCategory |>.map (·.score)) ∧
    (processResults ⟨0, none⟩ ⟨"p", []⟩).overallScore = 0 :=
  ⟨(claim_C6 ⟨77, some [⟨"1a", "A", 10, "s", "f"⟩]⟩ ⟨"p", []⟩).1 (by decide),
   (claim_C6 _ ⟨"p", []⟩).2.1 _ rfl rfl (by decide),
   (claim_C6 ⟨0, none⟩ ⟨"p", []⟩).2.2 rfl (Or.inl rfl)⟩

end DmpEva
